import Mathlib

set_option maxRecDepth 8000

/-!
Verification development for the java-static-audit analyzer.

The definitions below are a shallow embedding of the Python source:

* `src/analyzer/java_ast.py` — the primary (javalang) pipeline
  `classes_with_lcom`, the field-usage resolver `_used_members_in_method`,
  the tree-sitter fallback `_classes_with_lcom_tree_sitter` with its inner
  `used_fields`, and the dispatcher `classes_with_lcom_with_fallback`.
* `src/analyzer/report.py` — `_normalized_lack_of_cohesion`,
  `_class_severity`, the exemption pattern and the rule severity table.
* `src/analyzer/heuristics_idempotency.py` and
  `src/analyzer/heuristics_resilience.py` — the regex rule sets, embedded as
  executable matchers for the exact compiled patterns.
* `src/run.py` — the per-file assembly of class rows and findings.

Python sets are represented as duplicate-free lists in insertion order
(membership being the semantics that matters), Python dicts keyed by strings
as association lists with the overwrite-in-place / append-if-new update of
`dictInsert`, Python float arithmetic as exact rational arithmetic over `ℚ`,
and the two external parsers as explicit tree inputs (`Except` outcomes), so
every function of the pipeline stays executable and total.
-/

namespace StaticAudit

/-- Characters matched by the Python regex class `\s` (space, tab, newline,
carriage return, vertical tab, form feed). -/
def isWsChar (c : Char) : Bool :=
  c == ' ' || c == '\t' || c == '\n' || c == '\r' || c == '\x0b' || c == '\x0c'

/-- Word characters for the Python regex boundary `\b`
(`[A-Za-z0-9_]` on the ASCII inputs considered here). -/
def isWordChar (c : Char) : Bool := c.isAlphanum || c == '_'

/-- Insert a string into a duplicate-free list, keeping first-insertion
order.  This models adding an element to a Python `set`; only membership is
ever observed. -/
def addUse (acc : List String) (s : String) : List String :=
  if acc.contains s then acc else acc ++ [s]

/-- Build the duplicate-free list standing for `set(l)`. -/
def dedupKeepFirst (l : List String) : List String := l.foldl addUse []

/-- Python `str.split(".")` over the character list: segments between dots,
empty segments preserved, `[""]` for the empty string. -/
def splitDot : List Char → List (List Char)
  | [] => [[]]
  | c :: cs =>
      if c = '.' then [] :: splitDot cs
      else
        match splitDot cs with
        | [] => [[c]]
        | seg :: rest => (c :: seg) :: rest

/-- Python `str(qual).split(".")[-1]`: the last dot-separated segment
(`splitDot` never returns an empty list, so the default is never used). -/
def lastSegment (q : String) : String :=
  String.mk ((splitDot q.toList).getLastD q.toList)

/-- Python dict assignment `d[k] = v`: overwrite the entry in place when the
key is present, append a new entry otherwise. -/
def dictInsert (d : List (String × α)) (k : String) (v : α) : List (String × α) :=
  if d.any (fun p => p.1 == k) then
    d.map (fun p => if p.1 == k then (k, v) else p)
  else d ++ [(k, v)]

/-- Build a Python dict from a sequence of key/value assignments. -/
def dictBuild (l : List (String × α)) : List (String × α) :=
  l.foldl (fun d kv => dictInsert d kv.1 kv.2) []

/-- Python `d[k]` / `d.get(k)` on the association-list dict. -/
def dictLookup (d : List (String × α)) (k : String) : Option α :=
  (d.find? (fun p => p.1 == k)).map (fun p => p.2)

/-- Non-empty intersection of two usage sets
(Python truthiness of `method_field_use[a] & method_field_use[b]`). -/
def sharesField (a b : List String) : Bool := a.any (fun x => b.contains x)

/-- Counts of (sharing, disjoint) unordered pairs over the listed usage
sets: exactly the `i < j` double loop of `classes_with_lcom`, the head
compared against every later element, then the tail recursively. -/
def pairShareCounts : List (List String) → Nat × Nat
  | [] => (0, 0)
  | s :: rest =>
    let here := rest.foldl
      (fun acc t => if sharesField s t then (acc.1 + 1, acc.2) else (acc.1, acc.2 + 1))
      (0, 0)
    let tail := pairShareCounts rest
    (here.1 + tail.1, here.2 + tail.2)

/-! The javalang-side model (primary strategy). -/

/-- Shallow model of the javalang AST nodes `_used_members_in_method`
inspects: `MemberReference` (member name, optional qualifier),
`MethodInvocation` (optional qualifier), and every other node kind collapsed
to `other`; each node carries the child subtrees the walker descends into. -/
inductive JNode where
  | memberRef (member : String) (qualifier : Option String) (children : List JNode)
  | methodInv (qualifier : Option String) (children : List JNode)
  | other (children : List JNode)

mutual

/-- All nodes of a subtree.  The source walks with an explicit stack; the
visit order is irrelevant because the results feed a set, so the embedding
fixes preorder. -/
def JNode.preorder : JNode → List JNode
  | .memberRef m q cs => .memberRef m q cs :: jnodeListPreorder cs
  | .methodInv q cs => .methodInv q cs :: jnodeListPreorder cs
  | .other cs => .other cs :: jnodeListPreorder cs

/-- Nodes of a forest, in order. -/
def jnodeListPreorder : List JNode → List JNode
  | [] => []
  | c :: cs => c.preorder ++ jnodeListPreorder cs

end

/-- Usage names contributed by one walked node in `_used_members_in_method`:
for a `MemberReference`, the member when it is a declared field and the
qualifier is `None` or `"this"`, plus the last dot-segment of a truthy
(non-`None`, non-empty) qualifier when that segment is a declared field; for
a `MethodInvocation`, the last dot-segment of a truthy qualifier when it is
a declared field. -/
def nodeContribution (fields : List String) : JNode → List String
  | .memberRef m q _ =>
      (if fields.contains m && (q == none || q == some "this") then [m] else []) ++
      (match q with
       | some qs => if qs != "" && fields.contains (lastSegment qs) then [lastSegment qs] else []
       | none => [])
  | .methodInv q _ =>
      (match q with
       | some qs => if qs != "" && fields.contains (lastSegment qs) then [lastSegment qs] else []
       | none => [])
  | .other _ => []

/-- The set of declared fields a method body uses
(`_used_members_in_method`): every contribution of every walked node.  The
falsy-body early return of the source coincides with walking an empty
forest, so no separate guard is needed. -/
def usedMembers (fields : List String) (body : List JNode) : List String :=
  (jnodeListPreorder body).foldl (fun acc n => (nodeContribution fields n).foldl addUse acc) []

/-- A javalang method: name and optional body forest
(`None` body = abstract/interface signature; `some []` = empty block). -/
structure JMethod where
  name : String
  body : Option (List JNode)

/-- A javalang `ClassDeclaration`: name, declared field names (the
declarator names collected by `_collect_fields`, in declaration order), and
method declarations. -/
structure JClass where
  name : String
  fields : List String
  methods : List JMethod

/-- A top-level type declaration of the parsed unit.  `classes_with_lcom`
analyzes only `ClassDeclaration` nodes and skips interfaces and every other
named declaration. -/
inductive TypeDecl where
  | classDecl (c : JClass)
  | interfaceDecl (name : String)
  | otherDecl

/-- One row of the `classes_with_lcom*` result list (a Python dict in the
source).  `error` is `none` exactly when the `error` key is absent. -/
structure ClassRow where
  file : String
  className : String
  methods : Nat
  lcom : Option Int
  fields : List String
  error : Option String
deriving DecidableEq

/-- The set of declared field names of a class (`_collect_fields`). -/
def candidateFields (c : JClass) : List String := dedupKeepFirst c.fields

/-- The methods whose `body` attribute is not `None` (`_method_bodies`). -/
def bodiedMethods (c : JClass) : List JMethod :=
  c.methods.filter (fun m => m.body.isSome)

/-- Field-usage set of one method, empty for a missing body. -/
def methodUse (fields : List String) (m : JMethod) : List String :=
  match m.body with
  | none => []
  | some b => usedMembers fields b

/-- The per-class dict `method_field_use`, keyed by method name, built over
the bodied methods in declaration order. -/
def buildUse (c : JClass) : List (String × List String) :=
  dictBuild ((bodiedMethods c).map (fun m => (m.name, methodUse (candidateFields c) m)))

/-- `p_share` of the `i < j` pair loop for one class. -/
def sharingCount (c : JClass) : Nat :=
  (pairShareCounts ((buildUse c).map (fun p => p.2))).1

/-- `p_no_share` of the `i < j` pair loop for one class. -/
def disjointCount (c : JClass) : Nat :=
  (pairShareCounts ((buildUse c).map (fun p => p.2))).2

/-- The result row `classes_with_lcom` appends for one analyzed class:
`methods` is the size of the `method_field_use` dict and
`lcom = max(p_no_share - p_share, 0)`. -/
def classRowOf (filename : String) (c : JClass) : ClassRow :=
  { file := filename
    className := c.name
    methods := (buildUse c).length
    lcom := some (max ((disjointCount c : Int) - (sharingCount c : Int)) 0)
    fields := candidateFields c
    error := none }

/-- `classes_with_lcom`, with the external `javalang.parse.parse` call
replaced by its outcome: a raised exception (`Except.error` with the
exception text) yields the single sentinel row, a parse tree yields one row
per `ClassDeclaration`. -/
def classesWithLcom (outcome : Except String (List TypeDecl)) (filename : String) :
    List ClassRow :=
  match outcome with
  | .error e =>
      [{ file := filename, className := "<PARSE_ERROR>", methods := 0,
         lcom := none, fields := [], error := some e }]
  | .ok types =>
      types.filterMap (fun t =>
        match t with
        | .classDecl c => some (classRowOf filename c)
        | _ => none)

/-! The tree-sitter-side model (fallback strategy). -/

/-- Shallow model of a tree-sitter concrete-syntax-tree node: its node
type string, its source text (as `text(n)` decodes it), and its children. -/
inductive TSNode where
  | node (ty : String) (txt : String) (children : List TSNode)

/-- Node type accessor. -/
def TSNode.ty : TSNode → String
  | .node t _ _ => t

/-- Source text accessor (`text(n)` of the source). -/
def TSNode.txt : TSNode → String
  | .node _ s _ => s

/-- Children accessor. -/
def TSNode.children : TSNode → List TSNode
  | .node _ _ cs => cs

mutual

/-- All nodes of a subtree in the order the reversed-stack loops of
`_classes_with_lcom_tree_sitter` visit them (preorder). -/
def TSNode.preorder : TSNode → List TSNode
  | .node t s cs => .node t s cs :: tsListPreorder cs

/-- Nodes of a forest, in order. -/
def tsListPreorder : List TSNode → List TSNode
  | [] => []
  | c :: cs => c.preorder ++ tsListPreorder cs

end

/-- The last child of the given node type, modelling the Python loops that
keep reassigning `cname`/`cbody`/`mname`/`mbody` over `c.children` so that
the last matching child wins. -/
def lastChildOfType (t : String) (n : TSNode) : Option TSNode :=
  (n.children.filter (fun ch => ch.ty == t)).getLast?

/-- Declared field names of a class body: every `variable_declarator`
directly under a `field_declaration` anywhere in the body subtree
contributes its direct `identifier` children (a Python set; duplicate-free
list here). -/
def tsFields (cbody : TSNode) : List String :=
  dedupKeepFirst
    ((cbody.preorder.filter (fun n => n.ty == "field_declaration")).flatMap
      (fun n =>
        (n.children.filter (fun ch => ch.ty == "variable_declarator")).flatMap
          (fun ch =>
            (ch.children.filter (fun ch2 => ch2.ty == "identifier")).map TSNode.txt)))

/-- The `(mname, mbody)` pairs of every `method_declaration` in the body
subtree: the last `identifier` child names the method, the last `block`
child is its body, and the pair is kept only when `mname` is truthy. -/
def tsMethods (cbody : TSNode) : List (String × Option TSNode) :=
  (cbody.preorder.filter (fun n => n.ty == "method_declaration")).filterMap
    (fun n =>
      match (lastChildOfType "identifier" n).map TSNode.txt with
      | some mname => if mname != "" then some (mname, lastChildOfType "block" n) else none
      | none => none)

/-- The inner `used_fields` of the fallback: over every node of the body
subtree, a `field_access` contributes each direct `identifier` child whose
text is a declared field, and a `method_invocation` contributes the last
dot-segment of its first direct `identifier` child when that is a declared
field. -/
def usedFieldsTS (fields : List String) (bnode : Option TSNode) : List String :=
  match bnode with
  | none => []
  | some b =>
      b.preorder.foldl
        (fun acc x =>
          if x.ty == "field_access" then
            ((x.children.filter (fun ch => ch.ty == "identifier")).filterMap
              (fun idn => if fields.contains idn.txt then some idn.txt else none)).foldl
              addUse acc
          else if x.ty == "method_invocation" then
            match (x.children.filter (fun ch => ch.ty == "identifier")).head? with
            | some i0 =>
                if fields.contains (lastSegment i0.txt) then addUse acc (lastSegment i0.txt)
                else acc
            | none => acc
          else acc)
        []

/-- The `mf` dict of the fallback for one class body: `used_fields` of each
method body, keyed by method name via the dict comprehension. -/
def tsBuildUse (cbody : TSNode) : List (String × List String) :=
  dictBuild ((tsMethods cbody).map (fun mb => (mb.1, usedFieldsTS (tsFields cbody) mb.2)))

/-- `p_yes` of the fallback's `i < j` pair loop for one class body. -/
def tsSharingCount (cbody : TSNode) : Nat :=
  (pairShareCounts ((tsBuildUse cbody).map (fun p => p.2))).1

/-- `p_no` of the fallback's `i < j` pair loop for one class body. -/
def tsDisjointCount (cbody : TSNode) : Nat :=
  (pairShareCounts ((tsBuildUse cbody).map (fun p => p.2))).2

/-- The result row the fallback appends for one `class_declaration` node,
`none` when the node has no `class_body` child (the `continue` branch).
The class name is the last `identifier` child, replaced by `"<anon>"` when
missing or falsy. -/
def tsClassRowOf (filename : String) (c : TSNode) : Option ClassRow :=
  match lastChildOfType "class_body" c with
  | none => none
  | some cbody =>
      let cname : String :=
        match (lastChildOfType "identifier" c).map TSNode.txt with
        | some s => if s == "" then "<anon>" else s
        | none => "<anon>"
      let d := tsBuildUse cbody
      let counts := pairShareCounts (d.map (fun p => p.2))
      some
        { file := filename
          className := cname
          methods := d.length
          lcom := some (max ((counts.2 : Int) - (counts.1 : Int)) 0)
          fields := tsFields cbody
          error := none }

/-- `_classes_with_lcom_tree_sitter`, with the external import/parse step
replaced by its outcome: any raised exception (`Except.error` with the
exception text) yields the single sentinel row of the enclosing handler,
otherwise every `class_declaration` node of the tree yields a row. -/
def classesWithLcomTreeSitter (outcome : Except String TSNode) (filename : String) :
    List ClassRow :=
  match outcome with
  | .error e =>
      [{ file := filename, className := "<PARSE_ERROR>", methods := 0,
         lcom := none, fields := [],
         error := some ("tree-sitter-fallback-failed: " ++ e) }]
  | .ok root =>
      (root.preorder.filter (fun n => n.ty == "class_declaration")).filterMap
        (tsClassRowOf filename)

/-- `classes_with_lcom_with_fallback`: run the primary pipeline; when its
result contains the `<PARSE_ERROR>` sentinel and the tree-sitter dependency
is importable, return the fallback pipeline result instead, otherwise the
primary result (in particular the primary sentinel row when the dependency
is unavailable).  `tsAvail` models `_ts_available()` and `fallback` the
fallback parse outcome. -/
def classesWithLcomWithFallback (primary : Except String (List TypeDecl))
    (tsAvail : Bool) (fallback : Except String TSNode) (filename : String) :
    List ClassRow :=
  let res := classesWithLcom primary filename
  if res.any (fun r => r.className == "<PARSE_ERROR>") then
    if tsAvail then classesWithLcomTreeSitter fallback filename else res
  else res

/-! The report-side definitions (`src/analyzer/report.py`).  Python float
arithmetic is embedded as exact rational arithmetic; the thresholds `0.80`
and `0.40` become `4/5` and `2/5`. -/

/-- `RED_THR`. -/
def RED_THR : ℚ := 4 / 5

/-- `YEL_THR`. -/
def YEL_THR : ℚ := 2 / 5

/-- Case-insensitive substring test, the semantics of
`re.search(pat, s, re.IGNORECASE)` for the literal alternatives of
`EXEMPTION_PATTERNS`. -/
def containsCI (hay needle : String) : Bool :=
  let h := hay.toList.map Char.toLower
  let n := needle.toList.map Char.toLower
  (List.range (h.length + 1)).any (fun i => n.isPrefixOf (h.drop i))

/-- `EXEMPTION_PATTERNS.search(class_name)`: the name contains one of the
five pattern words, case-insensitively. -/
def exemptionMatch (className : String) : Bool :=
  ["Aspect", "State", "NullObject", "Repository", "Listener"].any
    (fun p => containsCI className p)

/-- `_normalized_lack_of_cohesion(methods, lcom)`.  `none` models a Python
`None` argument.  The `m < 2` and `denom <= 0` branches return `0` before
any quotient is formed, exactly as the source returns early; otherwise the
value is `lcom / (m*(m-1)/2)` clamped into `[0, 1]`. -/
def normalizedLackOfCohesion (methods : Option Int) (lcom : Option ℚ) : ℚ :=
  match methods, lcom with
  | none, _ => 0
  | _, none => 0
  | some m, some l =>
      if m < 2 then 0
      else
        let denom : ℚ := (m : ℚ) * ((m : ℚ) - 1) / 2
        if denom ≤ 0 then 0
        else max 0 (min 1 (l / denom))

/-- `_class_severity(methods, lcom, class_name)`: the
(severity emoji, note, normalized score) triple.  `"🟥"` is Red, `"🟨"`
Yellow, `"🟩"` Green. -/
def classSeverity (methods : Option Int) (lcom : Option ℚ) (className : String) :
    String × String × ℚ :=
  let nlc := normalizedLackOfCohesion methods lcom
  let sev := if RED_THR ≤ nlc then "🟥" else if YEL_THR ≤ nlc then "🟨" else "🟩"
  if exemptionMatch className && sev != "🟩" then
    (if sev == "🟥" then "🟨" else "🟩",
     "Pattern exception (type tends to have low cohesion); downgraded by one level.",
     nlc)
  else (sev, "", nlc)

/-- `RULE_SEVERITY` as an association list, in source order. -/
def RULE_SEVERITY : List (String × String) :=
  [("PARSE_ERROR", "🟨"),
   ("STATIC_STATE_MUTATION", "🟨"),
   ("REST_NO_TIMEOUT", "🟥"),
   ("CATCH_GENERIC_EXCEPTION", "🟨"),
   ("UNBOUNDED_THREADPOOL", "🟥"),
   ("WEBCLIENT_NO_TIMEOUT", "🟥"),
   ("FEIGN_NO_TIMEOUTS", "🟥"),
   ("POST_WRITE_NO_IDEMPOTENCY_HINT", "🟥"),
   ("NON_DETERMINISM", "🟨"),
   ("SRP_VIOLATION", "🟥"),
   ("OCP_SMELL_SWITCH_ON_TYPE", "🟨"),
   ("OCP_SMELL_INSTANCEOF_CHAIN", "🟨"),
   ("LSP_VIOLATION_UNSUPPORTED", "🟥"),
   ("ISP_SMELL_FAT_INTERFACE", "🟨"),
   ("ISP_SMELL_EMPTY_IMPLEMENTATION", "🟨"),
   ("DIP_VIOLATION_CONCRETE_DEP", "🟥")]

/-- `RULE_SEVERITY.get(rule, "🟨")`, as the report module resolves a rule
to its severity. -/
def ruleSeverity (rule : String) : String :=
  (dictLookup RULE_SEVERITY rule).getD "🟨"

/-! Executable embeddings of the compiled regular expressions of
`heuristics_idempotency.py` and `heuristics_resilience.py`.  A matcher is a
function `List Char → Option (List Char)` consuming a prefix and returning
the rest; `searchList` tries it at every position, the semantics of
`pattern.search(text)` truthiness. -/

/-- Match a literal, case-sensitively. -/
def pLit (w : String) (cs : List Char) : Option (List Char) :=
  if w.toList.isPrefixOf cs then some (cs.drop w.toList.length) else none

/-- Case-insensitive literal prefix match. -/
def prefixCI : List Char → List Char → Option (List Char)
  | [], cs => some cs
  | _ :: _, [] => none
  | p :: ps, c :: cs => if p.toLower == c.toLower then prefixCI ps cs else none

/-- Match a literal under `re.IGNORECASE`. -/
def pLitCI (w : String) (cs : List Char) : Option (List Char) :=
  prefixCI w.toList cs

/-- Match `\s*` (greedy; every use in the source is followed by a
non-whitespace literal, so greediness is exact). -/
def pWs0 (cs : List Char) : Option (List Char) :=
  some (cs.dropWhile isWsChar)

/-- Match `\s+`. -/
def pWs1 (cs : List Char) : Option (List Char) :=
  match cs with
  | [] => none
  | c :: rest => if isWsChar c then some (rest.dropWhile isWsChar) else none

/-- Sequencing of matchers. -/
def pSeq (p q : List Char → Option (List Char)) (cs : List Char) : Option (List Char) :=
  (p cs).bind q

/-- Match `\b` when the rest of the pattern has just consumed a word: the
next character must not be a word character (or the input ends). -/
def pWordEnd (cs : List Char) : Option (List Char) :=
  match cs with
  | [] => some []
  | c :: _ => if isWordChar c then none else some cs

/-- Search: does the matcher succeed at some position? -/
def searchList (p : List Char → Option (List Char)) : List Char → Bool
  | [] => (p []).isSome
  | c :: cs => (p (c :: cs)).isSome || searchList p cs

/-- Search restricted to positions preceded by a non-word character or the
start of input: the `\b` boundary before a pattern that begins with a word
character. -/
def searchWordStart (p : List Char → Option (List Char)) :
    Option Char → List Char → Bool
  | prev, [] => (prev.all (fun c => !isWordChar c)) && (p []).isSome
  | prev, c :: cs =>
      ((prev.all (fun c0 => !isWordChar c0)) && (p (c :: cs)).isSome) ||
      searchWordStart p (some c) cs

/-- Python `sub in s` (case-sensitive substring test). -/
def containsStr (s sub : String) : Bool :=
  searchList (pLit sub) s.toList

/-- Match `[^)]*` followed by `q`: skip characters other than a closing
parenthesis until `q` matches (existence of a match is what the search
truthiness observes). -/
def pScanNoParen (q : List Char → Option (List Char)) : List Char → Option (List Char)
  | [] => q []
  | c :: cs =>
      match q (c :: cs) with
      | some r => some r
      | none => if c == ')' then none else pScanNoParen q cs

/-- Match `[^;=]*=` starting here: the first `;` or `=` encountered must be
an `=`. -/
def pEqBeforeSemi : List Char → Option (List Char)
  | [] => none
  | c :: cs => if c == '=' then some cs else if c == ';' then none else pEqBeforeSemi cs

/-- `POST_MAPPING` =
`@PostMapping|@RequestMapping\s*\([^)]*method\s*=\s*RequestMethod\.POST`
with `re.DOTALL | re.IGNORECASE`. -/
def postMappingHit (s : String) : Bool :=
  searchList (pLitCI "@PostMapping") s.toList ||
  searchList
    (pSeq (pLitCI "@RequestMapping")
      (pSeq pWs0 (pSeq (pLit "(")
        (pScanNoParen (pSeq (pLitCI "method")
          (pSeq pWs0 (pSeq (pLit "=") (pSeq pWs0 (pLitCI "RequestMethod.POST")))))))))
    s.toList

/-- `DB_WRITE` = `\b(save|insert|persist|merge|update)\s*\(` with
`re.IGNORECASE`. -/
def dbWriteHit (s : String) : Bool :=
  searchWordStart
    (fun cs =>
      (["save", "insert", "persist", "merge", "update"].firstM
        (fun kw => pSeq (pLitCI kw) (pSeq pWs0 (pLit "(")) cs)))
    none s.toList

/-- `TIME_CALLS` =
`\b(System\.currentTimeMillis|LocalDateTime\.now|Instant\.now|new\s+Date\s*\()`. -/
def timeCallsHit (s : String) : Bool :=
  searchWordStart
    (fun cs =>
      match pLit "System.currentTimeMillis" cs with
      | some r => some r
      | none =>
        match pLit "LocalDateTime.now" cs with
        | some r => some r
        | none =>
          match pLit "Instant.now" cs with
          | some r => some r
          | none => pSeq (pLit "new") (pSeq pWs1 (pSeq (pLit "Date") (pSeq pWs0 (pLit "(")))) cs)
    none s.toList

/-- `RAND_CALLS` = `\b(Random\s*\(|Math\.random\(\))`. -/
def randCallsHit (s : String) : Bool :=
  searchWordStart
    (fun cs =>
      match pSeq (pLit "Random") (pSeq pWs0 (pLit "(")) cs with
      | some r => some r
      | none => pLit "Math.random()" cs)
    none s.toList

/-- `STATIC_STATE` = `\bstatic\b(?!\s+final\b)[^;=]*=`: the word `static`,
not followed by whitespace and the word `final`, then an `=` before any
`;`. -/
def staticStateHit (s : String) : Bool :=
  searchWordStart
    (fun cs =>
      (pLit "static" cs).bind (fun rest =>
        (pWordEnd rest).bind (fun rest2 =>
          if (pSeq pWs1 (pSeq (pLit "final") pWordEnd) rest2).isSome then none
          else pEqBeforeSemi rest2)))
    none s.toList

/-- `LOGGER_HINT` = `\bLogger\b|\bSlf4j\b|\bLogFactory\b` with
`re.IGNORECASE`. -/
def loggerHintHit (s : String) : Bool :=
  searchWordStart
    (fun cs =>
      (["Logger", "Slf4j", "LogFactory"].firstM
        (fun w => pSeq (pLitCI w) pWordEnd cs)))
    none s.toList

/-- `heuristics_idempotency.scan`: the three conditional findings in source
order. -/
def idempScan (s : String) : List (String × String) :=
  (if postMappingHit s && dbWriteHit s then
    [("POST_WRITE_NO_IDEMPOTENCY_HINT",
      "POST endpoint appears to write to DB without visible dedupe/idempotency key.")]
   else []) ++
  (if timeCallsHit s && randCallsHit s then
    [("NON_DETERMINISM",
      "Uses time and randomness together; consider injecting time/PRNG for repeatability.")]
   else []) ++
  (if staticStateHit s && !loggerHintHit s then
    [("STATIC_STATE_MUTATION",
      "Static mutable state found; may break idempotent retries unless guarded.")]
   else [])

/-- `RESTTEMPLATE` = `new\s+RestTemplate\s*\(`. -/
def restTemplateHit (s : String) : Bool :=
  searchList (pSeq (pLit "new") (pSeq pWs1 (pSeq (pLit "RestTemplate") (pSeq pWs0 (pLit "("))))) s.toList

/-- The timeout-hint substring allowlist guarding `REST_NO_TIMEOUT`. -/
def timeoutHints (s : String) : Bool :=
  containsStr s "setConnectTimeout" || containsStr s "setReadTimeout" ||
  containsStr s "ClientHttpRequestFactory" ||
  containsStr s "HttpComponentsClientHttpRequestFactory" ||
  containsStr s "RequestFactory"

/-- `CATCH_ALL` = `catch\s*\(\s*Exception\s*[)\s]`.  After `Exception`, the
pattern needs a `)` or one whitespace character (the regex backtracks `\s*`
to zero when the next character is whitespace, so the tail reduces to that
one-character test). -/
def catchAllHit (s : String) : Bool :=
  searchList
    (pSeq (pLit "catch") (pSeq pWs0 (pSeq (pLit "(") (pSeq pWs0 (pSeq (pLit "Exception")
      (fun cs =>
        match cs with
        | [] => none
        | c :: rest => if c == ')' || isWsChar c then some rest else none))))))
    s.toList

/-- `CACHED_POOL` = `Executors\.newCachedThreadPool\s*\(`. -/
def cachedPoolHit (s : String) : Bool :=
  searchList (pSeq (pLit "Executors.newCachedThreadPool") (pSeq pWs0 (pLit "("))) s.toList

/-- `WEBCLIENT` = `WebClient\.builder\s*\(\s*\)`. -/
def webClientHit (s : String) : Bool :=
  searchList (pSeq (pLit "WebClient.builder") (pSeq pWs0 (pSeq (pLit "(") (pSeq pWs0 (pLit ")"))))) s.toList

/-- `FEIGN` = `@FeignClient\(`. -/
def feignHit (s : String) : Bool :=
  searchList (pLit "@FeignClient(") s.toList

/-- `heuristics_resilience.scan`: the five conditional findings in source
order. -/
def resScan (s : String) : List (String × String) :=
  (if restTemplateHit s && !timeoutHints s then
    [("REST_NO_TIMEOUT",
      "RestTemplate instantiation detected; ensure custom RequestFactory with connect/read timeouts.")]
   else []) ++
  (if catchAllHit s then
    [("CATCH_GENERIC_EXCEPTION",
      "Catching generic Exception; prefer specific exceptions or rethrow with context.")]
   else []) ++
  (if cachedPoolHit s then
    [("UNBOUNDED_THREADPOOL",
      "newCachedThreadPool is unbounded; consider bounded pools/Bulkhead patterns.")]
   else []) ++
  (if webClientHit s && !containsStr s "responseTimeout" then
    [("WEBCLIENT_NO_TIMEOUT",
      "WebClient builder found without explicit responseTimeout; define timeouts.")]
   else []) ++
  (if feignHit s && !containsStr s "connectTimeout" && !containsStr s "readTimeout" then
    [("FEIGN_NO_TIMEOUTS",
      "Feign client annotation found; ensure connectTimeout/readTimeout in config.")]
   else [])

/-! The per-file assembly of `run.py`. -/

/-- One finding record `{file, rule, message}`. -/
structure Finding where
  file : String
  rule : String
  message : String
deriving DecidableEq

/-- The row loop of `run.py`: a `<PARSE_ERROR>` row becomes a `PARSE_ERROR`
finding carrying the error text (default `"(no message)"`), every other row
becomes a class-metric record. -/
def processClassRows (rows : List ClassRow) : List ClassRow × List Finding :=
  rows.foldl
    (fun acc r =>
      if r.className == "<PARSE_ERROR>" then
        (acc.1, acc.2 ++ [{ file := r.file, rule := "PARSE_ERROR",
                            message := r.error.getD "(no message)" }])
      else (acc.1 ++ [r], acc.2))
    ([], [])

/-- The full per-file pass of `run.py` over one source file: class rows and
findings from the parser pipeline, followed by the idempotency scan and the
resilience scan of the raw text.  No structural/SOLID scan appears here
because `run.py` never invokes `heuristics_solid.scan`. -/
def perFileOutput (filename text : String) (primary : Except String (List TypeDecl))
    (tsAvail : Bool) (fallback : Except String TSNode) :
    List ClassRow × List Finding :=
  let rows := classesWithLcomWithFallback primary tsAvail fallback filename
  let cr := processClassRows rows
  (cr.1,
   cr.2 ++ (idempScan text).map (fun p => { file := filename, rule := p.1, message := p.2 }) ++
   (resScan text).map (fun p => { file := filename, rule := p.1, message := p.2 }))

/-! Concrete inputs used by the claim theorems, witnesses and
counterexamples. -/

/-- Keys of an association-list dict, in order. -/
def dictKeys (d : List (String × α)) : List String := d.map (fun p => p.1)

/-- The javalang body of a method whose source text is the single statement
`return a.b;`: javalang collapses the dotted name into one MemberReference
with member `b` and qualifier `"a"` (the dotted prefix). -/
def jlReturnAB : List JNode := [.other [.memberRef "b" (some "a") []]]

/-- The tree-sitter body for the same source text `return a.b;`: the
dotted name is a `field_access` whose direct identifier children are `a`
and `b`. -/
def tsReturnAB : TSNode :=
  .node "block" ""
    [.node "return_statement" ""
      [.node "return" "return" [],
       .node "field_access" ""
         [.node "identifier" "a" [], .node "." "." [], .node "identifier" "b" []],
       .node ";" ";" []]]

/-- The javalang body for the bare unqualified read `return x;`: javalang
attaches the falsy qualifier `""` (empty string, not `None`; `None`
qualifiers arise only on selector nodes such as the member selected on
`this`), so the resolver records nothing for a bare reference. -/
def jlBareReturnX : List JNode := [.other [.memberRef "x" (some "") []]]

/-- The tree-sitter body for the same bare read `return x;`: a `block`
holding a `return_statement` whose expression is a bare `identifier` node;
no `field_access` and no `method_invocation` occurs in this tree. -/
def tsReturnX : TSNode :=
  .node "block" ""
    [.node "return_statement" ""
      [.node "return" "return" [], .node "identifier" "x" [], .node ";" ";" []]]

/-- The javalang tree for the receiver-qualified invocation `f.g()`: one
MethodInvocation node with qualifier `f` and member `g`. -/
def jlInvocation (f : String) : List JNode := [.methodInv (some f) []]

/-- The tree-sitter tree for the same invocation `f.g()`: a
`method_invocation` whose direct identifier children are the receiver `f`
and the method name `g`. -/
def tsInvocation (f g : String) : TSNode :=
  .node "method_invocation" ""
    [.node "identifier" f [], .node "." "." [], .node "identifier" g [],
     .node "argument_list" "()" []]

/-- The class of the three-method cohesion scenario: method `a` uses only
field `x`, method `b` uses only field `x`, method `c` uses only field
`y`. -/
def c7Class : JClass :=
  { name := "C7Sample", fields := ["x", "y"],
    methods :=
      [ { name := "a", body := some [.memberRef "x" none []] },
        { name := "b", body := some [.memberRef "x" none []] },
        { name := "c", body := some [.memberRef "y" none []] } ] }

/-- A two-bodied-method class (plus one abstract method) with disjoint
field usage, used to instantiate the LCOM theorem. -/
def c1Class : JClass :=
  { name := "C1Demo", fields := ["a", "b"],
    methods :=
      [ { name := "m1", body := some [.memberRef "a" none []] },
        { name := "m2", body := some [.memberRef "b" none []] },
        { name := "abs", body := none } ] }

/-- A class with two bodied overloads of `f` (using `x` and then `y`) and a
method `g`, for the overload-collapsing theorem. -/
def c10Class : JClass :=
  { name := "C10Over", fields := ["x", "y"],
    methods :=
      [ { name := "f", body := some [.memberRef "x" none []] },
        { name := "f", body := some [.memberRef "y" none []] },
        { name := "g", body := some [.memberRef "x" none []] } ] }

/-- A tree-sitter `field_declaration` declaring one field. -/
def tsFieldDecl (nm : String) : TSNode :=
  .node "field_declaration" ""
    [.node "variable_declarator" "" [.node "identifier" nm []]]

/-- A tree-sitter method block whose body is the single access `this.nm`. -/
def tsThisAccessBlock (nm : String) : TSNode :=
  .node "block" ""
    [.node "field_access" "" [.node "this" "this" [], .node "identifier" nm []]]

/-- A tree-sitter `method_declaration` with the given name and block. -/
def tsMethodDecl (nm : String) (b : TSNode) : TSNode :=
  .node "method_declaration" "" [.node "identifier" nm [], b]

/-- A tree-sitter class body mirroring `c10Class`: fields `x`, `y`, two
overloads of `f` (using `this.x` and then `this.y`) and a method `g`. -/
def c10Body : TSNode :=
  .node "class_body" ""
    [tsFieldDecl "x", tsFieldDecl "y",
     tsMethodDecl "f" (tsThisAccessBlock "x"),
     tsMethodDecl "f" (tsThisAccessBlock "y"),
     tsMethodDecl "g" (tsThisAccessBlock "x")]

/-- A tree-sitter `method_declaration` with a name but no `block` child: an
abstract method, which the fallback extraction keeps with `mbody = None`. -/
def tsAbstractMethodDecl (nm : String) : TSNode :=
  .node "method_declaration" "" [.node "identifier" nm []]

/-- A tree-sitter class body with field `x`, a bodied method `f` reading
`this.x`, and an abstract method `g` with no body. -/
def c1FallbackBody : TSNode :=
  .node "class_body" ""
    [tsFieldDecl "x", tsMethodDecl "f" (tsThisAccessBlock "x"),
     tsAbstractMethodDecl "g"]

/-- The `class_declaration` node holding `c1FallbackBody`. -/
def c1FallbackClass : TSNode :=
  .node "class_declaration" ""
    [.node "identifier" "AbstractDemo" [], c1FallbackBody]

/-- Source text containing a POST-mapping annotation and a persistence
write call. -/
def c9PostWithSave : String :=
  "@PostMapping\npublic void create() orderRepo.save(order);"

/-- The same text with the `save(` call removed and no other write-call
token present. -/
def c9PostNoSave : String :=
  "@PostMapping\npublic void create() orderRepo.find(order);"

/-- A one-class parse result used to instantiate the fallback theorem. -/
def c4Types : List TypeDecl :=
  [.classDecl { name := "Ok", fields := [], methods := [] }]

/-! Helper lemmas about the dict, pair-counting and scan combinators. -/

theorem head?_filter_eq_find? {α : Type} (p : α → Bool) (l : List α) :
    (l.filter p).head? = l.find? p := by
  induction l with
  | nil => rfl
  | cons a l ih =>
      by_cases h : p a
      · simp [List.filter_cons, h, List.find?_cons, ih]
      · simp [List.filter_cons, h, List.find?_cons, ih]

theorem getLast?_filter_eq_find?_reverse {α : Type} (p : α → Bool) (l : List α) :
    (l.filter p).getLast? = l.reverse.find? p := by
  rw [List.getLast?_eq_head?_reverse, ← List.filter_reverse, head?_filter_eq_find?]

theorem find?_cons_key {α : Type} (q : String × α) (l : List (String × α)) (k : String) :
    List.find? (fun p => p.1 == k) (q :: l) =
      if q.1 = k then some q else List.find? (fun p => p.1 == k) l := by
  by_cases h : q.1 = k
  · rw [if_pos h]
    exact List.find?_cons_of_pos _ (by simp [beq_iff_eq, h])
  · rw [if_neg h]
    exact List.find?_cons_of_neg _ (by simp [beq_iff_eq, h])

theorem find?_map_overwrite {α : Type} (d : List (String × α)) (k0 k : String) (v0 : α) :
    (d.map (fun p => if p.1 == k0 then (k0, v0) else p)).find? (fun p => p.1 == k) =
      if k = k0 then
        ((d.find? (fun p => p.1 == k0)).map (fun _ => (k0, v0)))
      else d.find? (fun p => p.1 == k) := by
  induction d with
  | nil => by_cases h : k = k0 <;> simp [h]
  | cons p d ih =>
      simp only [List.map_cons]
      by_cases h : k = k0
      · subst h
        rw [if_pos rfl] at ih ⊢
        by_cases h0 : p.1 = k
        · have hf : (if p.1 == k then ((k, v0) : String × α) else p) = (k, v0) := by
            simp [beq_iff_eq, h0]
          rw [hf, find?_cons_key, find?_cons_key, if_pos h0]
          simp
        · have hf : (if p.1 == k then ((k, v0) : String × α) else p) = p := by
            simp [beq_iff_eq, h0]
          rw [hf, find?_cons_key, find?_cons_key, if_neg h0, if_neg h0]
          exact ih
      · rw [if_neg h] at ih ⊢
        have hne : ¬ ((k0 : String) = k) := fun hc => h (Eq.symm hc)
        by_cases h0 : p.1 = k0
        · have hf : (if p.1 == k0 then ((k0, v0) : String × α) else p) = (k0, v0) := by
            simp [beq_iff_eq, h0]
          have hpk : ¬ (p.1 = k) := fun hc => hne (Eq.trans (Eq.symm h0) hc)
          rw [hf, find?_cons_key, find?_cons_key, if_neg hne, if_neg hpk]
          exact ih
        · have hf : (if p.1 == k0 then ((k0, v0) : String × α) else p) = p := by
            simp [beq_iff_eq, h0]
          rw [hf, find?_cons_key, find?_cons_key]
          by_cases hk : p.1 = k
          · rw [if_pos hk, if_pos hk]
          · rw [if_neg hk, if_neg hk]
            exact ih

theorem dictLookup_insert {α : Type} (d : List (String × α)) (k0 k : String) (v0 : α) :
    dictLookup (dictInsert d k0 v0) k = if k = k0 then some v0 else dictLookup d k := by
  unfold dictInsert dictLookup
  by_cases hany : d.any (fun p => p.1 == k0)
  · simp only [hany, if_true]
    rw [find?_map_overwrite]
    by_cases h : k = k0
    · subst h
      rcases List.any_eq_true.mp hany with ⟨p, hp, hpk⟩
      have : (d.find? (fun p => p.1 == k)).isSome := by
        rw [List.find?_isSome]; exact ⟨p, hp, hpk⟩
      rcases Option.isSome_iff_exists.mp this with ⟨q, hq⟩
      simp [hq]
    · simp [h]
  · simp only [hany, if_false, Bool.false_eq_true]
    rw [List.find?_append]
    by_cases h : k = k0
    · subst h
      have hnone : d.find? (fun p => p.1 == k) = none := by
        rw [List.find?_eq_none]
        intro p hp hpk
        exact hany (List.any_eq_true.mpr ⟨p, hp, hpk⟩)
      simp [hnone, List.find?_cons]
    · have : ((k0, v0).1 == k) = false := by simp [beq_iff_eq]; exact fun hc => h hc.symm
      simp [List.find?_cons, this, h]

theorem dictLookup_foldl {α : Type} (l : List (String × α)) :
    ∀ (d : List (String × α)) (k : String),
      dictLookup (l.foldl (fun d kv => dictInsert d kv.1 kv.2) d) k =
        ((l.reverse.find? (fun p => p.1 == k)).map (fun p => p.2)).or (dictLookup d k) := by
  induction l with
  | nil => intro d k; simp
  | cons kv l ih =>
      intro d k
      simp only [List.foldl_cons, List.reverse_cons, List.find?_append]
      rw [ih]
      cases hfind : l.reverse.find? (fun p => p.1 == k) with
      | some p => simp [hfind]
      | none =>
          simp only [hfind, Option.map_none, Option.none_or, Option.or]
          rw [dictLookup_insert]
          by_cases h : k = kv.1
          · simp [List.find?_cons, beq_iff_eq, h]
          · have : (kv.1 == k) = false := by simp [beq_iff_eq]; exact fun hc => h hc.symm
            simp [List.find?_cons, this, h]

theorem dictLookup_dictBuild {α : Type} (l : List (String × α)) (k : String) :
    dictLookup (dictBuild l) k =
      (l.reverse.find? (fun p => p.1 == k)).map (fun p => p.2) := by
  unfold dictBuild
  rw [dictLookup_foldl]
  simp [dictLookup]

theorem dictKeys_insert {α : Type} (d : List (String × α)) (k0 : String) (v0 : α) :
    dictKeys (dictInsert d k0 v0) =
      if d.any (fun p => p.1 == k0) then dictKeys d else dictKeys d ++ [k0] := by
  unfold dictInsert dictKeys
  by_cases hany : d.any (fun p => p.1 == k0)
  · simp only [hany, if_true, List.map_map]
    congr 1
    funext p
    by_cases h : p.1 = k0 <;> simp [beq_iff_eq, h]
  · simp [hany]

theorem mem_dictKeys_foldl {α : Type} (l : List (String × α)) :
    ∀ (d : List (String × α)) (k : String),
      k ∈ dictKeys (l.foldl (fun d kv => dictInsert d kv.1 kv.2) d) ↔
        k ∈ dictKeys d ∨ k ∈ l.map (fun p => p.1) := by
  induction l with
  | nil => intro d k; simp
  | cons kv l ih =>
      intro d k
      simp only [List.foldl_cons, List.map_cons, List.mem_cons]
      rw [ih]
      rw [dictKeys_insert]
      by_cases hany : d.any (fun p => p.1 == kv.1)
      · simp only [hany, if_true]
        constructor
        · intro h; rcases h with h | h
          · exact Or.inl h
          · exact Or.inr (Or.inr h)
        · intro h
          rcases h with h | h | h
          · exact Or.inl h
          · subst h
            rcases List.any_eq_true.mp hany with ⟨p, hp, hpk⟩
            have : p.1 = kv.1 := by simpa [beq_iff_eq] using hpk
            exact Or.inl (this ▸ List.mem_map_of_mem _ hp)
          · exact Or.inr h
      · simp only [hany, if_false, Bool.false_eq_true, List.mem_append, List.mem_singleton]
        tauto

theorem nodup_dictKeys_foldl {α : Type} (l : List (String × α)) :
    ∀ (d : List (String × α)), (dictKeys d).Nodup →
      (dictKeys (l.foldl (fun d kv => dictInsert d kv.1 kv.2) d)).Nodup := by
  induction l with
  | nil => intro d h; simpa using h
  | cons kv l ih =>
      intro d h
      simp only [List.foldl_cons]
      apply ih
      rw [dictKeys_insert]
      by_cases hany : d.any (fun p => p.1 == kv.1)
      · simpa [hany] using h
      · simp only [hany, if_false, Bool.false_eq_true]
        have hk : kv.1 ∉ dictKeys d := by
          intro hmem
          rcases List.mem_map.mp hmem with ⟨p, hp, hpk⟩
          exact hany (List.any_eq_true.mpr ⟨p, hp, by simp [beq_iff_eq, hpk]⟩)
        simpa [List.nodup_append] using ⟨h, hk⟩

theorem dictBuild_keys_nodup {α : Type} (l : List (String × α)) :
    (dictKeys (dictBuild l)).Nodup := by
  unfold dictBuild
  exact nodup_dictKeys_foldl l [] (by simp [dictKeys])

theorem mem_dictKeys_dictBuild {α : Type} (l : List (String × α)) (k : String) :
    k ∈ dictKeys (dictBuild l) ↔ k ∈ l.map (fun p => p.1) := by
  unfold dictBuild
  rw [mem_dictKeys_foldl]
  simp [dictKeys]

theorem foldl_dictInsert_of_fresh {α : Type} (l : List (String × α)) :
    ∀ (d : List (String × α)),
      (∀ k ∈ l.map (fun p => p.1), k ∉ dictKeys d) → (l.map (fun p => p.1)).Nodup →
      l.foldl (fun d kv => dictInsert d kv.1 kv.2) d = d ++ l := by
  induction l with
  | nil => intro d _ _; simp
  | cons kv l ih =>
      intro d hdisj hnodup
      simp only [List.foldl_cons]
      have hfresh : ¬ d.any (fun p => p.1 == kv.1) := by
        intro hany
        rcases List.any_eq_true.mp hany with ⟨p, hp, hpk⟩
        have : kv.1 ∈ dictKeys d := by
          have : p.1 = kv.1 := by simpa [beq_iff_eq] using hpk
          exact this ▸ List.mem_map_of_mem _ hp
        exact hdisj kv.1 (by simp) this
      have hins : dictInsert d kv.1 kv.2 = d ++ [kv] := by
        unfold dictInsert
        simp [hfresh]
      rw [hins, ih (d ++ [kv])]
      · simp
      · intro k hk
        simp only [dictKeys, List.map_append, List.mem_append]
        rintro (h | h)
        · exact hdisj k (by simp [hk]) h
        · simp only [List.map_cons, List.nodup_cons] at hnodup
          rcases hnodup with ⟨hne, _⟩
          simp only [List.map, List.mem_singleton] at h
          exact hne (h ▸ hk)
      · simp only [List.map_cons, List.nodup_cons] at hnodup
        exact hnodup.2

theorem dictBuild_of_nodup {α : Type} (l : List (String × α))
    (h : (l.map (fun p => p.1)).Nodup) : dictBuild l = l := by
  unfold dictBuild
  rw [foldl_dictInsert_of_fresh l [] (by simp [dictKeys]) h]
  simp

theorem pairFold_total (s : List String) (l : List (List String)) :
    ∀ (a b : Nat),
      ((l.foldl
        (fun acc t => if sharesField s t then (acc.1 + 1, acc.2) else (acc.1, acc.2 + 1))
        (a, b)).1 +
       (l.foldl
        (fun acc t => if sharesField s t then (acc.1 + 1, acc.2) else (acc.1, acc.2 + 1))
        (a, b)).2) = a + b + l.length := by
  induction l with
  | nil => intro a b; simp
  | cons t l ih =>
      intro a b
      simp only [List.foldl_cons]
      by_cases h : sharesField s t
      · rw [if_pos h, ih, List.length_cons]; omega
      · rw [if_neg h, ih, List.length_cons]; omega

theorem pairShareCounts_total (l : List (List String)) :
    2 * ((pairShareCounts l).1 + (pairShareCounts l).2) = l.length * (l.length - 1) := by
  induction l with
  | nil => rfl
  | cons s rest ih =>
      have hfold := pairFold_total s rest 0 0
      have hcons : pairShareCounts (s :: rest) =
          ((rest.foldl
              (fun acc t => if sharesField s t then (acc.1 + 1, acc.2) else (acc.1, acc.2 + 1))
              (0, 0)).1 + (pairShareCounts rest).1,
           (rest.foldl
              (fun acc t => if sharesField s t then (acc.1 + 1, acc.2) else (acc.1, acc.2 + 1))
              (0, 0)).2 + (pairShareCounts rest).2) := rfl
      rw [hcons, List.length_cons]
      rcases rest with _ | ⟨t, rest2⟩
      · simp [pairShareCounts]
      · have hpos : 0 < (t :: rest2).length := by simp
        obtain ⟨m, hm⟩ := Nat.exists_eq_add_of_lt hpos
        rw [hm] at ih hfold ⊢
        have key : (0 + m + 1 + 1) * (0 + m + 1 + 1 - 1) =
            2 * (0 + m + 1) + (0 + m + 1) * (0 + m + 1 - 1) := by
          simp only [Nat.zero_add, Nat.add_sub_cancel]
          ring
        rw [key]
        generalize (0 + m + 1) * (0 + m + 1 - 1) = A at ih ⊢
        omega

theorem idempScan_rules (s : String) (p : String × String) (h : p ∈ idempScan s) :
    p.1 = "POST_WRITE_NO_IDEMPOTENCY_HINT" ∨ p.1 = "NON_DETERMINISM" ∨
    p.1 = "STATIC_STATE_MUTATION" := by
  unfold idempScan at h
  split_ifs at h <;> aesop

theorem resScan_rules (s : String) (p : String × String) (h : p ∈ resScan s) :
    p.1 = "REST_NO_TIMEOUT" ∨ p.1 = "CATCH_GENERIC_EXCEPTION" ∨
    p.1 = "UNBOUNDED_THREADPOOL" ∨ p.1 = "WEBCLIENT_NO_TIMEOUT" ∨
    p.1 = "FEIGN_NO_TIMEOUTS" := by
  unfold resScan at h
  split_ifs at h <;> aesop

theorem processClassRows_findings (rows : List ClassRow) :
    ∀ (acc : List ClassRow × List Finding) (f : Finding),
      f ∈ (rows.foldl
        (fun acc r =>
          if r.className == "<PARSE_ERROR>" then
            (acc.1, acc.2 ++ [{ file := r.file, rule := "PARSE_ERROR",
                                message := r.error.getD "(no message)" }])
          else (acc.1 ++ [r], acc.2))
        acc).2 →
      f ∈ acc.2 ∨ f.rule = "PARSE_ERROR" := by
  induction rows with
  | nil => intro acc f h; exact Or.inl h
  | cons r rows ih =>
      intro acc f h
      simp only [List.foldl_cons] at h
      by_cases hr : r.className == "<PARSE_ERROR>"
      · rw [if_pos hr] at h
        rcases ih _ f h with h2 | h2
        · rcases List.mem_append.mp h2 with h3 | h3
          · exact Or.inl h3
          · right
            simp only [List.mem_singleton] at h3
            rw [h3]
        · exact Or.inr h2
      · rw [if_neg hr] at h
        exact ih (acc.1 ++ [r], acc.2) f h

theorem mem_classesWithLcom_ok (types : List TypeDecl) (fn : String) (r : ClassRow)
    (h : r ∈ classesWithLcom (.ok types) fn) :
    ∃ c, TypeDecl.classDecl c ∈ types ∧ r = classRowOf fn c := by
  simp only [classesWithLcom, List.mem_filterMap] at h
  rcases h with ⟨t, ht, hr⟩
  cases t with
  | classDecl c =>
      refine ⟨c, ht, ?_⟩
      simp only [Option.some_inj] at hr
      exact hr.symm
  | interfaceDecl nm => simp at hr
  | otherDecl => simp at hr

/-! Claim theorems. -/

/-- C1 counterexample: under the fallback strategy a method with no body
is not excluded from the pairwise comparison set: the extraction keeps the
abstract method `g` (name present, no `block` child), only one of the two
kept methods is bodied, yet the class row counts both and the bodiless
method's empty usage set makes the `(f, g)` pair disjoint, so the row
reports 2 methods and raw LCOM 1 where the claim (comparison set = bodied
methods only, here a single method and zero pairs) demands 1 method and
LCOM 0. -/
theorem bodiless_in_fallback_comparison :
    (tsMethods c1FallbackBody).map (fun p => (p.1, p.2.isSome)) =
      [("f", true), ("g", false)] ∧
    ((tsMethods c1FallbackBody).filter (fun p => p.2.isSome)).length = 1 ∧
    tsClassRowOf "C1ts.java" c1FallbackClass =
      some { file := "C1ts.java", className := "AbstractDemo", methods := 2,
             lcom := some 1, fields := ["x"], error := none } ∧
    (2 : Nat) ≠ 1 ∧ some (1 : Int) ≠ some 0 :=
  ⟨by decide, by decide, by decide, by decide, by decide⟩

/-- C1 amended: under the primary strategy the claim holds as stated — for
a class whose bodied methods have pairwise distinct names, the comparison
set contains exactly the bodied methods with their field-usage sets
(methods with no body never appear), sharing and disjoint counts partition
all `m·(m−1)/2` unordered pairs, a pair is sharing exactly when the usage
sets intersect, and raw LCOM is `max(disjointCount − sharingCount, 0)`;
under the fallback strategy the same pair and LCOM formulas are applied,
but a method with no body is not excluded: every extracted method enters
the comparison set, a bodiless one with the empty usage set. -/
theorem lcom_pairwise_both_strategies (fn : String) (c : JClass) (cnode cbody : TSNode)
    (h : ((bodiedMethods c).map (fun m => m.name)).Nodup)
    (hts : ((tsMethods cbody).map (fun p => p.1)).Nodup)
    (hbody : lastChildOfType "class_body" cnode = some cbody) :
    ((classRowOf fn c).methods = (bodiedMethods c).length ∧
     buildUse c = (bodiedMethods c).map (fun m => (m.name, methodUse (candidateFields c) m)) ∧
     sharingCount c + disjointCount c =
       ((classRowOf fn c).methods * ((classRowOf fn c).methods - 1)) / 2 ∧
     (classRowOf fn c).lcom =
       some (max ((disjointCount c : Int) - (sharingCount c : Int)) 0) ∧
     (∀ a b : List String, sharesField a b = true ↔ ∃ x, x ∈ a ∧ x ∈ b)) ∧
    (tsBuildUse cbody =
       (tsMethods cbody).map (fun mb => (mb.1, usedFieldsTS (tsFields cbody) mb.2)) ∧
     (∀ fs, usedFieldsTS fs none = []) ∧
     (∃ row, tsClassRowOf fn cnode = some row ∧
       row.methods = (tsMethods cbody).length ∧
       row.lcom =
         some (max ((tsDisjointCount cbody : Int) - (tsSharingCount cbody : Int)) 0) ∧
       tsSharingCount cbody + tsDisjointCount cbody =
         (row.methods * (row.methods - 1)) / 2)) := by
  have hbuild : buildUse c =
      (bodiedMethods c).map (fun m => (m.name, methodUse (candidateFields c) m)) := by
    unfold buildUse
    apply dictBuild_of_nodup
    simpa [List.map_map, Function.comp] using h
  have hlen : (classRowOf fn c).methods = (bodiedMethods c).length := by
    show (buildUse c).length = (bodiedMethods c).length
    rw [hbuild, List.length_map]
  have htsbuild : tsBuildUse cbody =
      (tsMethods cbody).map (fun mb => (mb.1, usedFieldsTS (tsFields cbody) mb.2)) := by
    unfold tsBuildUse
    apply dictBuild_of_nodup
    simpa [List.map_map, Function.comp] using hts
  refine ⟨⟨hlen, hbuild, ?_, rfl, ?_⟩, htsbuild, fun fs => rfl, ?_⟩
  · have htot := pairShareCounts_total ((buildUse c).map (fun p => p.2))
    have hvl : ((buildUse c).map (fun p => p.2)).length = (classRowOf fn c).methods := by
      show _ = (buildUse c).length
      rw [List.length_map]
    rw [hvl] at htot
    have hs : sharingCount c = (pairShareCounts ((buildUse c).map (fun p => p.2))).1 := rfl
    have hd : disjointCount c = (pairShareCounts ((buildUse c).map (fun p => p.2))).2 := rfl
    rw [hs, hd]
    generalize (classRowOf fn c).methods * ((classRowOf fn c).methods - 1) = A at htot ⊢
    omega
  · intro a b
    simp [sharesField, List.any_eq_true]
  · simp only [tsClassRowOf]
    rw [hbody]
    refine ⟨_, rfl, ?_, rfl, ?_⟩
    · show (tsBuildUse cbody).length = (tsMethods cbody).length
      rw [htsbuild, List.length_map]
    · have htot := pairShareCounts_total ((tsBuildUse cbody).map (fun p => p.2))
      have hvl : ((tsBuildUse cbody).map (fun p => p.2)).length = (tsBuildUse cbody).length :=
        List.length_map _ _
      rw [hvl] at htot
      have hs : tsSharingCount cbody =
          (pairShareCounts ((tsBuildUse cbody).map (fun p => p.2))).1 := rfl
      have hd : tsDisjointCount cbody =
          (pairShareCounts ((tsBuildUse cbody).map (fun p => p.2))).2 := rfl
      rw [hs, hd]
      generalize (tsBuildUse cbody).length * ((tsBuildUse cbody).length - 1) = A at htot ⊢
      omega

/-- Witness for the amended C1: the primary side at a class with two
bodied methods and one abstract method, the fallback side at a class body
keeping an abstract method in the comparison set. -/
theorem lcom_pairwise_both_strategies_witness :
    (classRowOf "C1.java" c1Class).methods = (bodiedMethods c1Class).length ∧
    sharingCount c1Class + disjointCount c1Class =
      ((classRowOf "C1.java" c1Class).methods *
        ((classRowOf "C1.java" c1Class).methods - 1)) / 2 ∧
    (∃ row, tsClassRowOf "C1.java" c1FallbackClass = some row ∧
      row.methods = (tsMethods c1FallbackBody).length ∧
      row.lcom = some (max ((tsDisjointCount c1FallbackBody : Int) -
        (tsSharingCount c1FallbackBody : Int)) 0) ∧
      tsSharingCount c1FallbackBody + tsDisjointCount c1FallbackBody =
        (row.methods * (row.methods - 1)) / 2) := by
  have hw := lcom_pairwise_both_strategies "C1.java" c1Class c1FallbackClass c1FallbackBody
    (by decide) (by decide) (by rfl)
  exact ⟨hw.1.1, hw.1.2.2.1, hw.2.2.2⟩

/-- C2: the normalized lack of cohesion is `0` whenever the method count is
missing or below `2` (returned before any quotient is formed), equals
`raw / (m·(m−1)/2)` clamped into `[0,1]` for `m ≥ 2`, always lies in
`[0,1]`, and every class row the analyzer produces carries a raw LCOM
`≥ 0`. -/
theorem normalized_cohesion_bounds :
    (∀ (m : Int) (lo : Option ℚ), m < 2 → normalizedLackOfCohesion (some m) lo = 0) ∧
    (∀ lo, normalizedLackOfCohesion none lo = 0) ∧
    (∀ (m : Int) (l : ℚ), 2 ≤ m →
      normalizedLackOfCohesion (some m) (some l) =
        max 0 (min 1 (l / ((m : ℚ) * ((m : ℚ) - 1) / 2)))) ∧
    (∀ mo lo, 0 ≤ normalizedLackOfCohesion mo lo ∧ normalizedLackOfCohesion mo lo ≤ 1) ∧
    (∀ (types : List TypeDecl) (fn : String) (r : ClassRow),
      r ∈ classesWithLcom (.ok types) fn → ∀ v, r.lcom = some v → 0 ≤ v) := by
  refine ⟨?_, ?_, ?_, ?_, ?_⟩
  · intro m lo hm
    cases lo <;> simp [normalizedLackOfCohesion, hm]
  · intro lo
    cases lo <;> rfl
  · intro m l hm
    have hm2 : ¬ (m < 2) := not_lt.mpr hm
    have hq : (2 : ℚ) ≤ (m : ℚ) := by exact_mod_cast hm
    have hpos : 0 < (m : ℚ) * ((m : ℚ) - 1) / 2 := by nlinarith
    have hd : ¬ ((m : ℚ) * ((m : ℚ) - 1) / 2 ≤ 0) := not_le.mpr hpos
    simp only [normalizedLackOfCohesion]
    rw [if_neg hm2, if_neg hd]
  · intro mo lo
    rcases mo with _ | m
    · rcases lo with _ | l <;> exact ⟨le_refl 0, zero_le_one⟩
    rcases lo with _ | l
    · exact ⟨le_refl 0, zero_le_one⟩
    simp only [normalizedLackOfCohesion]
    by_cases hm : m < 2
    · simp [hm]
    · rw [if_neg hm]
      by_cases hd : ((m : ℚ) * ((m : ℚ) - 1) / 2 ≤ 0)
      · simp [hd]
      · rw [if_neg hd]
        exact ⟨le_max_left 0 _, max_le (by norm_num) (min_le_left 1 _)⟩
  · intro types fn r hr v hv
    obtain ⟨c, _, rfl⟩ := mem_classesWithLcom_ok types fn r hr
    have : some (max ((disjointCount c : Int) - (sharingCount c : Int)) 0) = some v := hv
    have hveq := Option.some_inj.mp this
    rw [← hveq]
    exact le_max_right _ _

/-- Witness for C2 at concrete method counts and a concrete pipeline row. -/
theorem normalized_cohesion_bounds_witness :
    normalizedLackOfCohesion (some 1) (some 5) = 0 ∧
    normalizedLackOfCohesion (some 3) (some 1) =
      max 0 (min 1 ((1 : ℚ) / ((3 : ℚ) * ((3 : ℚ) - 1) / 2))) ∧
    (0 ≤ normalizedLackOfCohesion (some 3) (some 1) ∧
      normalizedLackOfCohesion (some 3) (some 1) ≤ 1) ∧
    0 ≤ (1 : Int) :=
  ⟨normalized_cohesion_bounds.1 1 (some 5) (by norm_num),
   normalized_cohesion_bounds.2.2.1 3 1 (by norm_num),
   normalized_cohesion_bounds.2.2.2.1 (some 3) (some 1),
   normalized_cohesion_bounds.2.2.2.2 [.classDecl c1Class] "C2.java"
     (classRowOf "C2.java" c1Class) (by simp [classesWithLcom]) 1 (by decide)⟩

/-- C3: the cohesion severity uses inclusive thresholds (`≥ 0.80` Red,
`≥ 0.40` Yellow, lower Green); an exemption-pattern class name downgrades
Red to Yellow and Yellow to Green with a non-empty note while Green stays
Green; `UserRepository` with Red-classifying metrics ends Yellow with a
non-empty note while `OrderProcessor` with identical metrics stays Red. -/
theorem severity_thresholds_exemption :
    (∀ (mo : Option Int) (lo : Option ℚ) (name : String),
      (classSeverity mo lo name).2.2 = normalizedLackOfCohesion mo lo) ∧
    (∀ mo lo name, exemptionMatch name = false →
      classSeverity mo lo name =
        ((if RED_THR ≤ normalizedLackOfCohesion mo lo then "🟥"
          else if YEL_THR ≤ normalizedLackOfCohesion mo lo then "🟨" else "🟩"),
         "", normalizedLackOfCohesion mo lo)) ∧
    (∀ mo lo name, exemptionMatch name = true →
      RED_THR ≤ normalizedLackOfCohesion mo lo →
      (classSeverity mo lo name).1 = "🟨" ∧ (classSeverity mo lo name).2.1 ≠ "") ∧
    (∀ mo lo name, exemptionMatch name = true →
      YEL_THR ≤ normalizedLackOfCohesion mo lo →
      normalizedLackOfCohesion mo lo < RED_THR →
      (classSeverity mo lo name).1 = "🟩" ∧ (classSeverity mo lo name).2.1 ≠ "") ∧
    (∀ mo lo name, exemptionMatch name = true →
      normalizedLackOfCohesion mo lo < YEL_THR →
      classSeverity mo lo name = ("🟩", "", normalizedLackOfCohesion mo lo)) ∧
    ((classSeverity (some 2) (some 1) "UserRepository").1 = "🟨" ∧
     (classSeverity (some 2) (some 1) "UserRepository").2.1 ≠ "" ∧
     (classSeverity (some 2) (some 1) "OrderProcessor").1 = "🟥" ∧
     RED_THR ≤ normalizedLackOfCohesion (some 2) (some 1)) := by
  have hnlc : normalizedLackOfCohesion (some 2) (some 1) = 1 := by
    norm_num [normalizedLackOfCohesion]
  have hexr : exemptionMatch "UserRepository" = true := by decide
  have hexo : exemptionMatch "OrderProcessor" = false := by decide
  refine ⟨?_, ?_, ?_, ?_, ?_, ?_⟩
  · intro mo lo name
    simp only [classSeverity]
    split_ifs <;> rfl
  · intro mo lo name hex
    simp [classSeverity, hex]
  · intro mo lo name hex hred
    simp only [classSeverity, hex]
    rw [if_pos hred]
    simp
  · intro mo lo name hex hyel hlt
    have hnr : ¬ (RED_THR ≤ normalizedLackOfCohesion mo lo) := not_le.mpr hlt
    simp only [classSeverity, hex]
    rw [if_neg hnr, if_pos hyel]
    simp
  · intro mo lo name hex hlt
    have hnr : ¬ (RED_THR ≤ normalizedLackOfCohesion mo lo) := by
      refine not_le.mpr (lt_of_lt_of_le hlt ?_)
      norm_num [RED_THR, YEL_THR]
    have hny : ¬ (YEL_THR ≤ normalizedLackOfCohesion mo lo) := not_le.mpr hlt
    simp only [classSeverity, hex]
    rw [if_neg hnr, if_neg hny]
    simp
  · refine ⟨?_, ?_, ?_, ?_⟩
    · norm_num [classSeverity, hnlc, hexr, RED_THR, YEL_THR]
      decide
    · norm_num [classSeverity, hnlc, hexr, RED_THR, YEL_THR]
      decide
    · norm_num [classSeverity, hnlc, hexo, RED_THR, YEL_THR]
    · rw [hnlc]; norm_num [RED_THR]

/-- Witness for C3 at concrete metric values and class names. -/
theorem severity_thresholds_exemption_witness :
    ((classSeverity (some 2) (some 1) "UserRepository").1 = "🟨" ∧
      (classSeverity (some 2) (some 1) "UserRepository").2.1 ≠ "") ∧
    classSeverity (some 2) (some 1) "OrderProcessor" =
      ((if RED_THR ≤ normalizedLackOfCohesion (some 2) (some 1) then "🟥"
        else if YEL_THR ≤ normalizedLackOfCohesion (some 2) (some 1) then "🟨" else "🟩"),
       "", normalizedLackOfCohesion (some 2) (some 1)) :=
  ⟨severity_thresholds_exemption.2.2.1 (some 2) (some 1) "UserRepository"
      (by decide)
      (by norm_num [normalizedLackOfCohesion, RED_THR]),
   severity_thresholds_exemption.2.1 (some 2) (some 1) "OrderProcessor" (by decide)⟩

/-- C4: the fallback pipeline is consulted only when the primary result
carries the parse-error sentinel (never as a first choice); a primary
failure with the fallback dependency available hands the file to the
fallback exactly once; when both strategies fail — or the dependency is
unavailable — the per-file outcome is zero class rows and exactly one
`PARSE_ERROR` finding, whose severity is Yellow, with no exception (every
embedded function is total so the batch continues). -/
theorem fallback_dispatch_spec (fn e e2 : String) (types : List TypeDecl)
    (ts : Bool) (fb : Except String TSNode)
    (hok : (classesWithLcom (.ok types) fn).any
      (fun r => r.className == "<PARSE_ERROR>") = false) :
    classesWithLcomWithFallback (.ok types) ts fb fn = classesWithLcom (.ok types) fn ∧
    classesWithLcomWithFallback (.error e) true fb fn = classesWithLcomTreeSitter fb fn ∧
    processClassRows (classesWithLcomWithFallback (.error e) true (.error e2) fn) =
      ([], [{ file := fn, rule := "PARSE_ERROR",
              message := "tree-sitter-fallback-failed: " ++ e2 }]) ∧
    processClassRows (classesWithLcomWithFallback (.error e) false fb fn) =
      ([], [{ file := fn, rule := "PARSE_ERROR", message := e }]) ∧
    ruleSeverity "PARSE_ERROR" = "🟨" := by
  refine ⟨?_, ?_, ?_, ?_, by decide⟩
  · simp only [classesWithLcomWithFallback]
    rw [hok]
    simp
  · simp [classesWithLcomWithFallback, classesWithLcom]
  · simp [classesWithLcomWithFallback, classesWithLcom, classesWithLcomTreeSitter,
      processClassRows]
  · simp [classesWithLcomWithFallback, classesWithLcom, processClassRows]

/-- Witness for C4 at a concrete parse result and error strings. -/
theorem fallback_dispatch_spec_witness :
    classesWithLcomWithFallback (.ok c4Types) false (.error "x") "W.java" =
      classesWithLcom (.ok c4Types) "W.java" ∧
    processClassRows (classesWithLcomWithFallback (.error "boom") false (.error "x") "W.java") =
      ([], [{ file := "W.java", rule := "PARSE_ERROR", message := "boom" }]) := by
  have h := fallback_dispatch_spec "W.java" "boom" "x" c4Types false (.error "x") (by decide)
  exact ⟨h.1, h.2.2.2.1⟩

/-- C5 counterexample: for the same method body source text `return a.b;`
over declared fields `a` and `b`, the primary resolver reduces the dotted
reference to the qualifier's last segment and reports only `{a}`, while the
fallback resolver reports every identifier child of the `field_access`,
`{a, b}` — the two strategies do not return the same used-field set (the
fallback set contains `b`, the primary set does not). -/
theorem resolver_strategy_divergence :
    usedMembers ["a", "b"] jlReturnAB = ["a"] ∧
    usedFieldsTS ["a", "b"] (some tsReturnAB) = ["a", "b"] ∧
    "b" ∈ (["a", "b"] : List String) ∧ "b" ∉ (["a"] : List String) :=
  ⟨by decide, by decide, by decide, by decide⟩

/-- C5 amended: the two resolvers are not equivalent on all trees of the
same source text (a dotted field access diverges, see the counterexample);
they do agree on a bare unqualified read — javalang attaches the falsy
qualifier `""` to it, so neither strategy records anything — and on a
single-identifier method-invocation receiver, where for `f.g()` both
report exactly the receiver when it names a declared field. -/
theorem resolver_receiver_agreement (fields : List String) (f g : String)
    (hf : f ≠ "") :
    usedMembers fields (jlInvocation f) = usedFieldsTS fields (some (tsInvocation f g)) ∧
    usedMembers fields jlBareReturnX = [] ∧
    usedFieldsTS fields (some tsReturnX) = [] := by
  refine ⟨?_, ?_, ?_⟩
  · by_cases hc : lastSegment f ∈ fields
    · simp [usedMembers, usedFieldsTS, jlInvocation, tsInvocation, jnodeListPreorder,
        JNode.preorder, TSNode.preorder, tsListPreorder, nodeContribution, addUse,
        TSNode.ty, TSNode.txt, TSNode.children, hf, hc]
    · simp [usedMembers, usedFieldsTS, jlInvocation, tsInvocation, jnodeListPreorder,
        JNode.preorder, TSNode.preorder, tsListPreorder, nodeContribution, addUse,
        TSNode.ty, TSNode.txt, TSNode.children, hf, hc]
  · simp [usedMembers, jlBareReturnX, jnodeListPreorder, JNode.preorder,
      nodeContribution]
  · simp [usedFieldsTS, tsReturnX, TSNode.preorder, tsListPreorder,
      TSNode.ty, TSNode.txt, TSNode.children]

/-- Witness for the amended C5 at a concrete receiver and field set. -/
theorem resolver_receiver_agreement_witness :
    usedMembers ["repo"] (jlInvocation "repo") =
      usedFieldsTS ["repo"] (some (tsInvocation "repo" "save")) ∧
    usedMembers ["x"] jlBareReturnX = [] :=
  ⟨(resolver_receiver_agreement ["repo"] "repo" "save" (by decide)).1,
   (resolver_receiver_agreement ["x"] "repo" "save" (by decide)).2.1⟩

/-- C6: the per-file engine pass of `run.py` assembles findings only from
the parser pipeline (`PARSE_ERROR`), the idempotency scan and the
resilience scan — the SOLID scan is never invoked — so no finding with rule
`ISP_SMELL_FAT_INTERFACE` is ever emitted for any input; and an interface
type declaration yields zero class-metric records. -/
theorem solid_rules_never_emitted (fn text : String)
    (primary : Except String (List TypeDecl)) (ts : Bool) (fb : Except String TSNode) :
    ((perFileOutput fn text primary ts fb).2.all
      (fun f => f.rule != "ISP_SMELL_FAT_INTERFACE")) = true ∧
    classesWithLcom (.ok [.interfaceDecl "FatInterface"]) fn = [] := by
  constructor
  · rw [List.all_eq_true]
    intro f hf
    simp only [perFileOutput, List.mem_append] at hf
    rcases hf with (hf | hf) | hf
    · rcases processClassRows_findings _ ([], []) f hf with h | h
      · simp at h
      · simp [h]
    · rcases List.mem_map.mp hf with ⟨p, hp, hfp⟩
      rcases idempScan_rules text p hp with h | h | h <;> rw [← hfp] <;> simp [h]
    · rcases List.mem_map.mp hf with ⟨p, hp, hfp⟩
      rcases resScan_rules text p hp with h | h | h | h | h <;> rw [← hfp] <;> simp [h]
  · rfl

/-- C7 counterexample: the three-method scenario class yields the row with
3 methods and raw LCOM 1, and the classifier then assigns severity Green,
not Yellow as the claim states (1/3 is below the 0.40 Yellow threshold). -/
theorem three_method_scenario_not_yellow :
    classesWithLcom (.ok [.classDecl c7Class]) "C7.java" =
      [{ file := "C7.java", className := "C7Sample", methods := 3, lcom := some 1,
         fields := ["x", "y"], error := none }] ∧
    (classSeverity (some 3) (some 1) "C7Sample").1 = "🟩" ∧
    ("🟩" : String) ≠ "🟨" := by
  refine ⟨by decide, ?_, by decide⟩
  have hnlc : normalizedLackOfCohesion (some 3) (some 1) = 1 / 3 := by
    norm_num [normalizedLackOfCohesion]
  have hex : exemptionMatch "C7Sample" = false := by decide
  norm_num [classSeverity, hnlc, hex, RED_THR, YEL_THR]

/-- C7 amended: in the three-method scenario the engine computes 3 pairs
(1 sharing, 2 disjoint), raw LCOM `max(2−1,0) = 1`, normalized score `1/3`,
and the resulting cohesion severity is Green, as `1/3 < 0.40`. -/
theorem three_method_scenario_green :
    (classRowOf "C7.java" c7Class).methods = 3 ∧
    sharingCount c7Class = 1 ∧ disjointCount c7Class = 2 ∧
    (classRowOf "C7.java" c7Class).lcom = some (max ((2 : Int) - 1) 0) ∧
    (classRowOf "C7.java" c7Class).lcom = some 1 ∧
    normalizedLackOfCohesion (some 3) (some 1) = 1 / 3 ∧
    classSeverity (some 3) (some 1) "C7Sample" = ("🟩", "", 1 / 3) := by
  refine ⟨by decide, by decide, by decide, by decide, by decide, ?_, ?_⟩
  · norm_num [normalizedLackOfCohesion]
  · have hnlc : normalizedLackOfCohesion (some 3) (some 1) = 1 / 3 := by
      norm_num [normalizedLackOfCohesion]
    have hex : exemptionMatch "C7Sample" = false := by decide
    norm_num [classSeverity, hnlc, hex, RED_THR, YEL_THR]

/-- C8: a qualified reference — member access or invocation receiver — is
reduced to its last dot-segment and counts as a usage exactly when that
segment is a declared field (`service.repo.save()` uses `repo`); a
qualifier that is exactly `this` with no field named `this` never by itself
produces a usage; and a body with no matching references yields the empty
set, never an error. -/
theorem qualified_reference_resolution (fields : List String) (q memb : String)
    (hq : q ≠ "") (hthis : "this" ∉ fields) (hrepo : "repo" ∈ fields)
    (hmemb : memb ∉ fields) :
    (usedMembers fields [.methodInv (some q) []] =
      if fields.contains (lastSegment q) then [lastSegment q] else []) ∧
    (usedMembers fields [.memberRef memb (some q) []] =
      if fields.contains (lastSegment q) then [lastSegment q] else []) ∧
    usedMembers fields [.methodInv (some "this") []] = [] ∧
    usedMembers fields [.methodInv (some "service.repo") []] = ["repo"] ∧
    usedMembers fields [] = [] := by
  have hsingleInv : ∀ (qs : String), qs ≠ "" →
      usedMembers fields [.methodInv (some qs) []] =
        if fields.contains (lastSegment qs) then [lastSegment qs] else [] := by
    intro qs hqs
    by_cases hc : lastSegment qs ∈ fields
    · simp [usedMembers, jnodeListPreorder, JNode.preorder, nodeContribution,
        addUse, hqs, hc]
    · simp [usedMembers, jnodeListPreorder, JNode.preorder, nodeContribution,
        addUse, hqs, hc]
  have hsingleRef : ∀ (qs mb : String), qs ≠ "" → mb ∉ fields →
      usedMembers fields [.memberRef mb (some qs) []] =
        if fields.contains (lastSegment qs) then [lastSegment qs] else [] := by
    intro qs mb hqs hmb
    by_cases hc : lastSegment qs ∈ fields
    · simp [usedMembers, jnodeListPreorder, JNode.preorder, nodeContribution,
        addUse, hqs, hc, hmb]
    · simp [usedMembers, jnodeListPreorder, JNode.preorder, nodeContribution,
        addUse, hqs, hc, hmb]
  have hts : lastSegment "this" = "this" := by decide
  have hlast : lastSegment "service.repo" = "repo" := by decide
  refine ⟨hsingleInv q hq, hsingleRef q memb hq hmemb, ?_, ?_, rfl⟩
  · rw [hsingleInv "this" (by decide), hts]
    simp [hthis]
  · rw [hsingleInv "service.repo" (by decide), hlast]
    simp [hrepo]

/-- Witness for C8 at a concrete field set, qualifier and member. -/
theorem qualified_reference_resolution_witness :
    usedMembers ["repo", "x"] [.methodInv (some "a.x") []] =
      (if (["repo", "x"] : List String).contains (lastSegment "a.x")
        then [lastSegment "a.x"] else []) ∧
    usedMembers ["repo", "x"] [.methodInv (some "service.repo") []] = ["repo"] :=
  ⟨(qualified_reference_resolution ["repo", "x"] "a.x" "zz"
      (by decide) (by decide) (by decide) (by decide)).1,
   (qualified_reference_resolution ["repo", "x"] "a.x" "zz"
      (by decide) (by decide) (by decide) (by decide)).2.2.2.1⟩

/-- C9: a source text matching both the POST-mapping pattern and the
persistence-write pattern yields the `POST_WRITE_NO_IDEMPOTENCY_HINT`
finding; a text not matching the write pattern never does; and the concrete
scenario text (with and without the `save(` call) matches and misses those
patterns accordingly. -/
theorem post_write_finding_spec (s t : String)
    (h1 : postMappingHit s = true) (h2 : dbWriteHit s = true)
    (h3 : dbWriteHit t = false) :
    "POST_WRITE_NO_IDEMPOTENCY_HINT" ∈ (idempScan s).map (fun p => p.1) ∧
    "POST_WRITE_NO_IDEMPOTENCY_HINT" ∉ (idempScan t).map (fun p => p.1) ∧
    postMappingHit c9PostWithSave = true ∧ dbWriteHit c9PostWithSave = true ∧
    dbWriteHit c9PostNoSave = false := by
  refine ⟨?_, ?_, by decide, by decide, by decide⟩
  · simp only [idempScan, h1, h2, Bool.and_self, if_true, List.map_append,
      List.mem_append]
    left
    simp
  · intro hmem
    rcases List.mem_map.mp hmem with ⟨p, hp, hrule⟩
    simp only [idempScan, h3, Bool.and_false, Bool.false_eq_true, if_false,
      List.nil_append, List.mem_append] at hp
    rcases hp with hp | hp <;> split_ifs at hp <;>
      simp only [List.mem_singleton, List.not_mem_nil] at hp <;>
      first
        | exact hp
        | (rw [hp] at hrule; simp at hrule)

/-- Witness for C9 at the two concrete scenario texts. -/
theorem post_write_finding_spec_witness :
    "POST_WRITE_NO_IDEMPOTENCY_HINT" ∈ (idempScan c9PostWithSave).map (fun p => p.1) ∧
    "POST_WRITE_NO_IDEMPOTENCY_HINT" ∉ (idempScan c9PostNoSave).map (fun p => p.1) := by
  have h := post_write_finding_spec c9PostWithSave c9PostNoSave
    (by decide) (by decide) (by decide)
  exact ⟨h.1, h.2.1⟩

theorem dictLookup_build_last {α : Type} (l : List (String × α)) (k : String) :
    dictLookup (dictBuild l) k =
      ((l.filter (fun p => p.1 == k)).getLast?).map (fun p => p.2) := by
  rw [dictLookup_dictBuild, getLast?_filter_eq_find?_reverse]

/-- C10: under both parser strategies the per-class comparison dict is
keyed by method name: its keys are duplicate-free, a name is a key exactly
when some bodied (resp. extracted) method bears it, the reported methods
count is the number of keys, and the stored usage set for a name is that of
the last traversed method with that name — later overloads overwrite
earlier ones. -/
theorem overload_collapse_by_name (fn : String) (c : JClass) (cbody : TSNode) :
    ((dictKeys (buildUse c)).Nodup ∧
     (∀ n, n ∈ dictKeys (buildUse c) ↔ n ∈ (bodiedMethods c).map (fun m => m.name)) ∧
     (classRowOf fn c).methods = (dictKeys (buildUse c)).length ∧
     (∀ n, dictLookup (buildUse c) n =
       (((bodiedMethods c).filter (fun m => m.name == n)).getLast?).map
         (fun m => methodUse (candidateFields c) m))) ∧
    ((dictKeys (tsBuildUse cbody)).Nodup ∧
     (∀ n, n ∈ dictKeys (tsBuildUse cbody) ↔ n ∈ (tsMethods cbody).map (fun p => p.1)) ∧
     (∀ n, dictLookup (tsBuildUse cbody) n =
       (((tsMethods cbody).filter (fun p => p.1 == n)).getLast?).map
         (fun p => usedFieldsTS (tsFields cbody) p.2))) := by
  refine ⟨⟨?_, ?_, ?_, ?_⟩, ?_, ?_, ?_⟩
  · simp only [buildUse]
    exact dictBuild_keys_nodup _
  · intro n
    simp only [buildUse]
    rw [mem_dictKeys_dictBuild]
    simp [List.map_map, Function.comp]
  · exact (List.length_map _ _).symm
  · intro n
    simp only [buildUse]
    rw [dictLookup_build_last, List.filter_map, List.getLast?_map, Option.map_map]
    rfl
  · simp only [tsBuildUse]
    exact dictBuild_keys_nodup _
  · intro n
    simp only [tsBuildUse]
    rw [mem_dictKeys_dictBuild]
    simp [List.map_map, Function.comp]
  · intro n
    simp only [tsBuildUse]
    rw [dictLookup_build_last, List.filter_map, List.getLast?_map, Option.map_map]
    rfl

end StaticAudit
